import Mathlib

set_option maxHeartbeats 1000000
set_option maxRecDepth 10000

/-!
Shallow embedding of the command-trust and session-orchestration pipeline of
the terminal-ai repository (src/ai_cli.py and src/command_config.py), together
with theorems settling the specification claims about it.

Strings are modelled by Lean `String`; Python whitespace handling
(`str.strip()` / `str.split()` with no separator) is modelled over the ASCII
whitespace characters.  Side-effecting collaborators (the subprocess runner,
the interactive prompt, the JSON files on disk) are modelled by passing their
observable outcome in as data.
-/

/-- Whitespace as recognized by Python `str.strip()` / `str.split()`
(ASCII fragment: space, tab, newline, carriage return, vertical tab,
form feed). -/
def pyIsSpace (c : Char) : Bool :=
  c == ' ' || c == '\t' || c == '\n' || c == '\r' || c == '\x0b' || c == '\x0c'

/-- Python `s.strip()`: remove leading and trailing whitespace. -/
def pyStrip (s : String) : String :=
  String.mk (((s.toList.dropWhile pyIsSpace).reverse.dropWhile pyIsSpace).reverse)

/-- Helper for `pySplit`: walk the character list, accumulating the current
word (reversed) and emitting it at each whitespace run. -/
def splitWsAux : List Char → List Char → List String
  | [], acc => if acc.isEmpty then [] else [String.mk acc.reverse]
  | c :: rest, acc =>
    if pyIsSpace c then
      (if acc.isEmpty then [] else [String.mk acc.reverse]) ++ splitWsAux rest []
    else
      splitWsAux rest (c :: acc)

/-- Python `s.split()` with no separator: split on whitespace runs,
producing no empty pieces. -/
def pySplit (s : String) : List String :=
  splitWsAux s.toList []

/-- `command.strip().split()[0]` when the token list is non-empty
(the first whitespace-delimited token of a command line). -/
def firstToken (command : String) : Option String :=
  (pySplit (pyStrip command)).head?

/-- `AICLI.SAFE_COMMANDS` (src/ai_cli.py lines 184-191): the fixed built-in
safe-command whitelist. -/
def SAFE_COMMANDS : List String :=
  ["ls", "pwd", "cd", "cat", "head", "tail", "grep", "find",
   "which", "where", "uname", "df", "du", "ps", "top", "free",
   "echo", "date", "whoami", "hostname", "file", "wc", "sort",
   "uniq", "cut", "awk", "sed", "tr", "base64", "md5sum", "sha1sum",
   "sha256sum", "stat", "id", "env", "printenv", "history", "jobs",
   "bg", "fg", "kill", "killall", "pkill", "pgrep", "pidof"]

/-- A `CommandApprovalEvent` as appended by
`CommandConfig.add_trusted_command` (src/command_config.py lines 68-73). -/
structure ApprovalEvent where
  command : String
  full_command : String
  reason : String
  added_at : String
deriving DecidableEq, Repr

/-- The in-memory state of `CommandConfig` (src/command_config.py):
the trusted-command set (a Python `set`, modelled as a list whose membership
is what matters) and the bounded approval history. -/
structure CommandConfigState where
  trusted_commands : List String
  command_history : List ApprovalEvent
deriving DecidableEq, Repr

/-- `CommandConfig.is_trusted` (src/command_config.py lines 48-55). -/
def is_trusted (st : CommandConfigState) (command : String) : Bool :=
  match firstToken command with
  | none => false
  | some cmd => cmd ∈ st.trusted_commands

/-- `AICLI._is_safe_command` (src/ai_cli.py lines 199-216): first token in
the built-in whitelist, else membership in the user trust store. -/
def is_safe_command (st : CommandConfigState) (command : String) : Bool :=
  match firstToken command with
  | none => false
  | some cmd =>
    if cmd ∈ SAFE_COMMANDS then true
    else is_trusted st command

/-- `CommandConfig.add_trusted_command` (src/command_config.py lines 57-79).
`now` stands for `datetime.now().isoformat()`.  The `save()` call persists the
state returned here. -/
def add_trusted_command (st : CommandConfigState) (command reason now : String) :
    CommandConfigState :=
  match firstToken command with
  | none => st
  | some cmd =>
    if cmd ∈ st.trusted_commands then st
    else
      let hist := st.command_history ++ [⟨cmd, command, reason, now⟩]
      let hist := if hist.length > 100 then hist.drop (hist.length - 100) else hist
      { trusted_commands := st.trusted_commands ++ [cmd], command_history := hist }

/-- Python `s.lower()` (ASCII fragment, which is what the prompt answers
`y`/`n`/`a` exercise). -/
def pyLower (s : String) : String :=
  String.mk (s.toList.map Char.toLower)

/-- `AICLI._ask_trust_command` (src/ai_cli.py lines 218-248).  The user's
reply to `input()` is passed in as `choice`; the function returns whether the
command may be executed, together with the trust store it leaves behind.
Reply `a` permanently trusts the command (reason "用户手动添加"), reply `y`
approves this turn only, anything else declines. -/
def ask_trust_command (st : CommandConfigState) (command choice now : String) :
    Bool × CommandConfigState :=
  match firstToken command with
  | none => (false, st)
  | some _ =>
    let ch := pyLower (pyStrip choice)
    if ch = "a" then (true, add_trusted_command st command "用户手动添加" now)
    else if ch = "y" then (true, st)
    else (false, st)

/-- How one `_single_mode` turn treats its input line: either a command is
executed (and its output fed to the model), or the line falls through to
natural-language handling (`_send_and_display`). -/
inductive TurnAction where
  | executeCommand
  | naturalLanguage
deriving DecidableEq, Repr

/-- The command-dispatch decision of `AICLI._single_mode`
(src/ai_cli.py lines 382-475): safe commands execute silently; otherwise, if
the first token resolves on the host (`_is_potential_command`, passed in as
the oracle `isPotential` since it probes the host shell), the trust prompt
runs and its verdict decides between execution and natural-language handling;
non-commands go straight to natural-language handling.  Returns the action
and the trust store after the turn. -/
def single_mode_action (st : CommandConfigState) (message : String)
    (isPotential : String → Bool) (choice now : String) :
    TurnAction × CommandConfigState :=
  if is_safe_command st message then (.executeCommand, st)
  else
    match firstToken message with
    | some cmd =>
      if isPotential cmd then
        let r := ask_trust_command st message choice now
        if r.1 then (.executeCommand, r.2) else (.naturalLanguage, r.2)
      else (.naturalLanguage, st)
    | none => (.naturalLanguage, st)

/-- One approval request: the full command line, the reason, and the
timestamp `datetime.now().isoformat()` observed at the call. -/
def Approval : Type := String × String × String

/-- The command name an approval inserts: the first token of its line
(defaulting to `""`, used only under an `isSome` hypothesis). -/
def tok (c : Approval) : String :=
  (firstToken c.1).getD ""

/-- The `CommandApprovalEvent` an approval appends. -/
def mkEvent (c : Approval) : ApprovalEvent :=
  ⟨tok c, c.1, c.2.1, c.2.2⟩

/-- A sequence of `add_trusted_command` calls, in order. -/
def approveAll (st : CommandConfigState) : List Approval → CommandConfigState
  | [] => st
  | c :: rest => approveAll (add_trusted_command st c.1 c.2.1 c.2.2) rest

/-- 101 concrete approvals with pairwise-distinct command names
`"0"`, `"1"`, ..., `"100"`. -/
def sampleApprovals101 : List Approval :=
  (List.range 101).map (fun i => (toString i, "r", "t"))

/-- A `ModelMessage` `{role, content}`, the wire shape handed to
`AIClient.chat_with_messages`. -/
structure Msg where
  role : String
  content : String
deriving DecidableEq, Repr

/-- A `ConversationTurn` as stored by `SessionManager.add_message`
(src/ai_cli.py lines 51-58): role, content and an ISO timestamp. -/
structure Turn where
  role : String
  content : String
  timestamp : String
deriving DecidableEq, Repr

/-- Python `l[-k:]` for a non-negative `k`: the last `min k (l.length)`
elements — except that `k = 0` denotes the slice `l[0:]`, the whole list. -/
def pySliceLast (k : Nat) (l : List α) : List α :=
  if k = 0 then l else l.drop (l.length - k)

/-- `SessionManager.get_history` (src/ai_cli.py lines 60-62):
`self.history[-max_turns * 2:] if self.history else []`. -/
def get_history (history : List Turn) (max_turns : Nat) : List Turn :=
  if history = [] then [] else pySliceLast (max_turns * 2) history

/-- `SessionManager.get_context_messages` (src/ai_cli.py lines 69-77): the
recent window at the default `max_turns = 10`, mapped to `{role, content}`. -/
def get_context_messages (history : List Turn) : List Msg :=
  (get_history history 10).map (fun t => ⟨t.role, t.content⟩)

/-- Python `list.insert(i, x)` for `0 ≤ i ≤ len(l)`. -/
def pyInsert (i : Nat) (x : α) (l : List α) : List α :=
  l.take i ++ x :: l.drop i

/-- The step shared by all three message-construction sites (src/ai_cli.py
lines 395-397, 439-441, 516-518): append the current input as a `user`
message iff the list is empty or its tail's role is not `user`. -/
def append_current_user (recent : List Msg) (message : String) : List Msg :=
  match recent.getLast? with
  | none => recent ++ [⟨"user", message⟩]
  | some m => if m.role ≠ "user" then recent ++ [⟨"user", message⟩] else recent

/-- The command-result system message of `_single_mode`
(src/ai_cli.py lines 400-403 and 444-447). -/
def command_system_msg (command_context : String) : Msg :=
  ⟨"system",
   "以下是用户执行的命令及其输出结果：\n" ++ command_context ++ "\n\n请基于这些信息回答用户的问题。"⟩

/-- The general-context system message of `_single_mode`
(src/ai_cli.py lines 406-411 and 449-455). -/
def context_system_msg_single (context : String) : Msg :=
  ⟨"system", "以下是当前的上下文信息：\n" ++ context ++ "\n"⟩

/-- The context system message of `_send_and_display`
(src/ai_cli.py lines 520-527). -/
def context_system_msg_send (context : String) : Msg :=
  ⟨"system", "以下是当前的上下文信息：\n" ++ context ++ "\n请基于这些信息回答用户的问题。"⟩

/-- Message-list construction on the command paths of `_single_mode`
(src/ai_cli.py lines 394-411, identically 438-455): recent history, the
current user turn unless the tail already has role `user`,
`insert(0, command-result system message)`, then
`insert(1, context system message)` when the collected context is
non-empty (`if context:`). -/
def single_mode_messages (recent : List Msg) (command_context context message : String) :
    List Msg :=
  let messages := append_current_user recent message
  let messages := pyInsert 0 (command_system_msg command_context) messages
  if context = "" then messages else pyInsert 1 (context_system_msg_single context) messages

/-- Message-list construction of `_send_and_display` (src/ai_cli.py lines
515-527): recent history, the current user turn unless the tail already has
role `user`, then `insert(0, context system message)` when the context is
non-empty. -/
def send_and_display_messages (recent : List Msg) (context message : String) : List Msg :=
  let messages := append_current_user recent message
  if context = "" then messages else pyInsert 0 (context_system_msg_send context) messages

/-- The observable outcome of
`subprocess.run(['bash', '-c', command], capture_output=True, text=True,
timeout=10)`: normal completion with an exit status and the captured streams,
a `subprocess.TimeoutExpired`, or any other exception with its description. -/
inductive RunOutcome where
  | completed (returncode : Int) (stdout stderr : String)
  | timedOut
  | failed (err : String)
deriving DecidableEq, Repr

/-- `AICLI._execute_command` (src/ai_cli.py lines 250-265), total on the
subprocess outcome: both `except` arms catch and return instead of raising. -/
def execute_command (o : RunOutcome) : Bool × String :=
  match o with
  | .completed rc out err => (rc == 0, out ++ err)
  | .timedOut => (false, "命令执行超时")
  | .failed e => (false, "命令执行错误: " ++ e)

/-- Where `AICLI.run` sends the process after reading piped input
(src/ai_cli.py lines 299-305): one non-saving `_single_mode` turn on the
piped text, or fall-through to argument/menu handling. -/
inductive RunDispatch where
  | pipedTurn (message : String) (save_to_session : Bool)
  | fallThrough
deriving DecidableEq, Repr

/-- The piped-input gate of `AICLI.run` (src/ai_cli.py lines 300-305):
`if piped_input and len(piped_input.strip()) > 10:` run
`_single_mode(piped_input, save_to_session=False)`, else fall through.
`none` models a tty stdin (`_read_piped_input` returned `None`). -/
def run_piped_dispatch (piped : Option String) : RunDispatch :=
  match piped with
  | none => .fallThrough
  | some s =>
    if s ≠ "" ∧ (pyStrip s).length > 10 then .pipedTurn s false
    else .fallThrough

/-- What loading a JSON document can observe: the file is absent, the file
exists but reading or parsing raises (`json.JSONDecodeError` / `IOError`), or
it parses into a document. -/
inductive LoadResult (α : Type) where
  | missing
  | unparseable
  | parsed (doc : α)

/-- A parsed `.trusted_commands.json` document: `data.get(key, default)`
semantics, an absent key being `none`. -/
structure TrustDoc where
  trusted_commands : Option (List String)
  command_history : Option (List ApprovalEvent)

/-- `CommandConfig.load` (src/command_config.py lines 26-36): a missing file
leaves the state as is, a parse or I/O failure resets both fields to empty,
a parsed document installs its fields (`set(...)` modelled by `dedup`). -/
def commandConfig_load (st : CommandConfigState) :
    LoadResult TrustDoc → CommandConfigState
  | .missing => st
  | .unparseable => ⟨[], []⟩
  | .parsed d => ⟨(d.trusted_commands.getD []).dedup, d.command_history.getD []⟩

/-- `CommandConfig.__init__` (src/command_config.py lines 15-24): both fields
start empty, then `load()` runs. -/
def commandConfig_init (r : LoadResult TrustDoc) : CommandConfigState :=
  commandConfig_load ⟨[], []⟩ r

/-- A parsed `.session_history.json` document: `data.get("history", [])`. -/
structure SessionDoc where
  history : Option (List Turn)

/-- `SessionManager.load_session` (src/ai_cli.py lines 32-40): a missing file
leaves the history as is, a parse or I/O failure resets it to empty, a parsed
document installs its `history` field. -/
def session_load (hist : List Turn) : LoadResult SessionDoc → List Turn
  | .missing => hist
  | .unparseable => []
  | .parsed d => d.history.getD []

/-- `SessionManager.__init__` (src/ai_cli.py lines 22-30): the history starts
empty, then `load_session()` runs. -/
def session_init (r : LoadResult SessionDoc) : List Turn :=
  session_load [] r

/-- C1: for every line whose first whitespace-delimited token is in the
built-in safe set, `_is_safe_command` returns `true` for every content of the
trust store, the empty one included. -/
theorem safe_command_pre_approved (st : CommandConfigState) (command cmd : String)
    (htok : firstToken command = some cmd) (hsafe : cmd ∈ SAFE_COMMANDS) :
    is_safe_command st command = true := by
  unfold is_safe_command
  rw [htok]
  simp [hsafe]

/-- C1 witness: `"ls -la"` is pre-approved even with a non-empty trust store. -/
theorem safe_command_pre_approved_witness :
    is_safe_command ⟨["deploy-tool"], []⟩ "ls -la" = true :=
  safe_command_pre_approved ⟨["deploy-tool"], []⟩ "ls -la" "ls" (by decide) (by decide)

/-- C2: in the trust-escalation prompt, any reply other than the recognized
choices declines (no execution, no trust-store mutation, fall-through to
natural-language handling); `y` executes without mutating the trust store;
only `a` mutates it, via `add_trusted_command`. -/
theorem trust_prompt_decline (st : CommandConfigState)
    (message choice now cmd : String) (isPotential : String → Bool)
    (htok : firstToken message = some cmd)
    (hsafe : is_safe_command st message = false)
    (hpot : isPotential cmd = true) :
    (pyLower (pyStrip choice) ≠ "a" → pyLower (pyStrip choice) ≠ "y" →
      ask_trust_command st message choice now = (false, st) ∧
      single_mode_action st message isPotential choice now = (.naturalLanguage, st))
    ∧ (pyLower (pyStrip choice) = "y" →
      ask_trust_command st message choice now = (true, st) ∧
      single_mode_action st message isPotential choice now = (.executeCommand, st))
    ∧ (pyLower (pyStrip choice) = "a" →
      ask_trust_command st message choice now =
        (true, add_trusted_command st message "用户手动添加" now) ∧
      single_mode_action st message isPotential choice now =
        (.executeCommand, add_trusted_command st message "用户手动添加" now))
    ∧ ((ask_trust_command st message choice now).2 ≠ st →
      pyLower (pyStrip choice) = "a") := by
  have hask : ask_trust_command st message choice now =
      (if pyLower (pyStrip choice) = "a" then
        (true, add_trusted_command st message "用户手动添加" now)
       else if pyLower (pyStrip choice) = "y" then (true, st)
       else (false, st)) := by
    unfold ask_trust_command
    rw [htok]
  have hsingle : single_mode_action st message isPotential choice now =
      (if (ask_trust_command st message choice now).1 then
        (.executeCommand, (ask_trust_command st message choice now).2)
       else (.naturalLanguage, (ask_trust_command st message choice now).2)) := by
    unfold single_mode_action
    rw [hsafe, htok]
    simp [hpot]
  refine ⟨?_, ?_, ?_, ?_⟩
  · intro ha hy
    rw [hask] at hsingle ⊢
    simp [ha, hy] at hsingle ⊢
    exact hsingle
  · intro hy
    rw [hask] at hsingle ⊢
    by_cases ha : pyLower (pyStrip choice) = "a"
    · rw [ha] at hy; exact absurd hy (by decide)
    · simp [ha, hy] at hsingle ⊢
      exact hsingle
  · intro ha
    rw [hask] at hsingle ⊢
    simp [ha] at hsingle ⊢
    exact hsingle
  · intro hmut
    by_contra ha
    rw [hask] at hmut
    by_cases hy : pyLower (pyStrip choice) = "y" <;> simp [ha, hy] at hmut

/-- C2 witness: with an empty trust store, the untrusted line
`"deploy-tool push"` and the unrecognized reply `"maybe"`, the prompt
declines, the store is unchanged, and the turn falls through to
natural-language handling. -/
theorem trust_prompt_decline_witness :
    ask_trust_command ⟨[], []⟩ "deploy-tool push" "maybe" "t0" = (false, ⟨[], []⟩) ∧
    single_mode_action ⟨[], []⟩ "deploy-tool push" (fun _ => true) "maybe" "t0" =
      (.naturalLanguage, ⟨[], []⟩) :=
  (trust_prompt_decline ⟨[], []⟩ "deploy-tool push" "maybe" "t0" "deploy-tool"
    (fun _ => true) (by decide) (by decide) rfl).1 (by decide) (by decide)

/-- Helper: `add_trusted_command` is a no-op when the first token is already
trusted (the `if cmd not in self.trusted_commands` guard). -/
theorem add_trusted_command_of_mem (st : CommandConfigState) (command r t cmd : String)
    (htok : firstToken command = some cmd) (hmem : cmd ∈ st.trusted_commands) :
    add_trusted_command st command r t = st := by
  unfold add_trusted_command
  rw [htok]
  simp [hmem]

/-- Helper: `add_trusted_command` on a fresh first token inserts it and
appends one event, truncating the history to its last 100 entries. -/
theorem add_trusted_command_of_not_mem (st : CommandConfigState) (command r t cmd : String)
    (htok : firstToken command = some cmd) (hnew : cmd ∉ st.trusted_commands) :
    add_trusted_command st command r t =
      { trusted_commands := st.trusted_commands ++ [cmd],
        command_history :=
          (let hist := st.command_history ++ [⟨cmd, command, r, t⟩]
           if hist.length > 100 then hist.drop (hist.length - 100) else hist) } := by
  unfold add_trusted_command
  rw [htok]
  simp [hnew]

/-- C3: `add_trusted_command` is idempotent: when the first token of a line
is not yet trusted, one call inserts exactly one entry for it and appends
exactly one approval event (evicting beyond the cap of 100), and a second
call with the same first token is a complete no-op. -/
theorem approve_idempotent (st : CommandConfigState)
    (command r1 t1 r2 t2 cmd : String)
    (htok : firstToken command = some cmd)
    (hnew : cmd ∉ st.trusted_commands) :
    add_trusted_command (add_trusted_command st command r1 t1) command r2 t2 =
      add_trusted_command st command r1 t1
    ∧ (add_trusted_command st command r1 t1).trusted_commands.count cmd = 1
    ∧ (add_trusted_command st command r1 t1).command_history.getLast? =
      some ⟨cmd, command, r1, t1⟩
    ∧ (add_trusted_command st command r1 t1).command_history.length =
      min (st.command_history.length + 1) 100 := by
  have h1 := add_trusted_command_of_not_mem st command r1 t1 cmd htok hnew
  refine ⟨?_, ?_, ?_, ?_⟩
  · exact add_trusted_command_of_mem _ command r2 t2 cmd htok (by rw [h1]; simp)
  · rw [h1]
    simp [List.count_append, List.count_eq_zero_of_not_mem hnew]
  · rw [h1]
    dsimp only
    split
    · rename_i hgt
      have hle : (st.command_history ++
          [(⟨cmd, command, r1, t1⟩ : ApprovalEvent)]).length - 100 ≤
          st.command_history.length := by
        simp only [List.length_append, List.length_cons, List.length_nil]
        omega
      rw [List.drop_append_of_le_length hle, List.getLast?_concat]
    · exact List.getLast?_concat _
  · rw [h1]
    dsimp only
    split
    · rename_i hgt
      simp only [List.length_drop, List.length_append, List.length_cons,
        List.length_nil] at hgt ⊢
      omega
    · rename_i hle
      simp only [List.length_append, List.length_cons, List.length_nil] at hle ⊢
      omega

/-- C3 witness: approving `"deploy-tool push"` twice from the empty store
leaves one trusted entry and one history event, and the second call is a
no-op. -/
theorem approve_idempotent_witness :
    add_trusted_command (add_trusted_command ⟨[], []⟩ "deploy-tool push" "r1" "t1")
        "deploy-tool push" "r2" "t2" =
      add_trusted_command ⟨[], []⟩ "deploy-tool push" "r1" "t1"
    ∧ (add_trusted_command ⟨[], []⟩ "deploy-tool push" "r1" "t1").trusted_commands.count
        "deploy-tool" = 1
    ∧ (add_trusted_command ⟨[], []⟩ "deploy-tool push" "r1" "t1").command_history.getLast? =
      some ⟨"deploy-tool", "deploy-tool push", "r1", "t1"⟩
    ∧ (add_trusted_command ⟨[], []⟩ "deploy-tool push" "r1" "t1").command_history.length =
      min (([] : List ApprovalEvent).length + 1) 100 :=
  approve_idempotent ⟨[], []⟩ "deploy-tool push" "r1" "t1" "r2" "t2" "deploy-tool"
    (by decide) (by decide)

/-- Helper: `approveAll` splits over list append. -/
theorem approveAll_append (a b : List Approval) :
    ∀ st : CommandConfigState, approveAll st (a ++ b) = approveAll (approveAll st a) b := by
  induction a with
  | nil => intro st; rfl
  | cons c rest ih => intro st; exact ih (add_trusted_command st c.1 c.2.1 c.2.2)

/-- Helper: a fresh approval below the cap appends exactly one entry and one
event, with no eviction. -/
theorem add_trusted_command_small (st : CommandConfigState) (command r t cmd : String)
    (htok : firstToken command = some cmd) (hnew : cmd ∉ st.trusted_commands)
    (hsmall : st.command_history.length < 100) :
    add_trusted_command st command r t =
      { trusted_commands := st.trusted_commands ++ [cmd],
        command_history := st.command_history ++ [⟨cmd, command, r, t⟩] } := by
  rw [add_trusted_command_of_not_mem st command r t cmd htok hnew]
  have hno : ¬ ((st.command_history ++
      [(⟨cmd, command, r, t⟩ : ApprovalEvent)]).length > 100) := by
    simp only [List.length_append, List.length_cons, List.length_nil]
    omega
  dsimp only
  rw [if_neg hno]

/-- Helper: approving a list of commands with pairwise-distinct, not yet
trusted first tokens, staying within the history cap, appends all tokens and
all events in order. -/
theorem approveAll_fresh (cmds : List Approval) :
    ∀ st : CommandConfigState,
    st.command_history.length + cmds.length ≤ 100 →
    (∀ c ∈ cmds, (firstToken c.1).isSome) →
    (cmds.map tok).Nodup →
    (∀ c ∈ cmds, tok c ∉ st.trusted_commands) →
    approveAll st cmds =
      { trusted_commands := st.trusted_commands ++ cmds.map tok,
        command_history := st.command_history ++ cmds.map mkEvent } := by
  induction cmds with
  | nil => intro st _ _ _ _; simp [approveAll]
  | cons c rest ih =>
    intro st hlen hsome hnodup hfresh
    rw [List.map_cons, List.nodup_cons] at hnodup
    have hc : firstToken c.1 = some (tok c) := by
      have hs := hsome c (by simp)
      cases h : firstToken c.1 with
      | none => rw [h] at hs; simp at hs
      | some t => simp [tok, h]
    have hsmall : st.command_history.length < 100 := by
      simp only [List.length_cons] at hlen
      omega
    have hstep := add_trusted_command_small st c.1 c.2.1 c.2.2 (tok c) hc
      (hfresh c (by simp)) hsmall
    have ihres := ih ⟨st.trusted_commands ++ [tok c],
        st.command_history ++ [⟨tok c, c.1, c.2.1, c.2.2⟩]⟩
      (by simp only [List.length_cons] at hlen
          simp only [List.length_append, List.length_cons, List.length_nil]
          omega)
      (fun c' hc' => hsome c' (by simp [hc']))
      hnodup.2
      (by
        intro c' hc'
        simp only [List.mem_append, List.mem_singleton]
        push_neg
        refine ⟨hfresh c' (by simp [hc']), ?_⟩
        intro heq
        exact hnodup.1 (heq ▸ List.mem_map_of_mem tok hc'))
    simp only [approveAll]
    rw [hstep, ihres]
    simp [mkEvent, List.append_assoc]

/-- C4: approval-history eviction is FIFO with cap 100: from the empty store,
101 approvals of lines with pairwise-distinct first tokens leave a history of
length exactly 100, equal to the events of the last 100 approvals in
insertion order, and no longer containing the first approved name. -/
theorem history_eviction_fifo (cmds : List Approval)
    (hlen : cmds.length = 101)
    (hsome : ∀ c ∈ cmds, (firstToken c.1).isSome)
    (hnodup : (cmds.map tok).Nodup) :
    (approveAll ⟨[], []⟩ cmds).command_history.length = 100
    ∧ (approveAll ⟨[], []⟩ cmds).command_history = (cmds.drop 1).map mkEvent
    ∧ ∀ c0 ∈ cmds.take 1,
        tok c0 ∉ (approveAll ⟨[], []⟩ cmds).command_history.map ApprovalEvent.command := by
  have hfb : cmds.take 100 ++ cmds.drop 100 = cmds := List.take_append_drop 100 cmds
  have hfrontlen : (cmds.take 100).length = 100 := by
    rw [List.length_take]; omega
  have hbacklen : (cmds.drop 100).length = 1 := by
    rw [List.length_drop]; omega
  obtain ⟨cl, hback⟩ := List.length_eq_one.mp hbacklen
  have hclmem : cl ∈ cmds := by
    rw [← hfb, hback]; simp
  have hcl_tok : firstToken cl.1 = some (tok cl) := by
    have hs := hsome cl hclmem
    cases h : firstToken cl.1 with
    | none => rw [h] at hs; simp at hs
    | some t => simp [tok, h]
  have hfront : approveAll ⟨[], []⟩ (cmds.take 100) =
      { trusted_commands := [] ++ (cmds.take 100).map tok,
        command_history := [] ++ (cmds.take 100).map mkEvent } := by
    refine approveAll_fresh (cmds.take 100) ⟨[], []⟩ ?_ ?_ ?_ ?_
    · simp only [hfrontlen]
      simp
    · intro c hc; exact hsome c (List.take_subset 100 cmds hc)
    · rw [List.map_take]
      exact hnodup.sublist (List.take_sublist 100 (cmds.map tok))
    · intro c _; simp
  have hsplitmap : cmds.map tok = (cmds.take 100).map tok ++ [tok cl] := by
    conv_lhs => rw [← hfb, hback]
    simp
  have hcl_fresh : tok cl ∉ (cmds.take 100).map tok := by
    rw [hsplitmap] at hnodup
    have hdisj := (List.nodup_append.mp hnodup).2.2
    intro hmem
    exact hdisj hmem (List.mem_singleton.mpr rfl)
  have hall : approveAll ⟨[], []⟩ cmds =
      add_trusted_command
        { trusted_commands := [] ++ (cmds.take 100).map tok,
          command_history := [] ++ (cmds.take 100).map mkEvent } cl.1 cl.2.1 cl.2.2 := by
    conv_lhs => rw [← hfb, hback]
    rw [approveAll_append, hfront]
    rfl
  have hstep := add_trusted_command_of_not_mem
    { trusted_commands := [] ++ (cmds.take 100).map tok,
      command_history := [] ++ (cmds.take 100).map mkEvent } cl.1 cl.2.1 cl.2.2 (tok cl)
    hcl_tok (by simpa using hcl_fresh)
  have hevlen : ((([] ++ (cmds.take 100).map mkEvent : List ApprovalEvent)) ++
      [(⟨tok cl, cl.1, cl.2.1, cl.2.2⟩ : ApprovalEvent)]).length = 101 := by
    simp only [List.nil_append, List.length_append, List.length_map, hfrontlen,
      List.length_cons, List.length_nil]
  have hhist : (approveAll ⟨[], []⟩ cmds).command_history = (cmds.drop 1).map mkEvent := by
    rw [hall, hstep]
    dsimp only
    rw [if_pos (by rw [hevlen]; omega)]
    rw [hevlen]
    rw [show (101 : ℕ) - 100 = 1 from rfl]
    rw [List.drop_append_of_le_length (by
      simp only [List.nil_append, List.length_map, hfrontlen]
      omega)]
    have hdrop1 : (cmds.take 100).drop 1 ++ cmds.drop 100 = cmds.drop 1 := by
      rw [List.drop_take 100 1 cmds]
      rw [show (100 : ℕ) - 1 = 99 from rfl]
      have hdd : cmds.drop 100 = (cmds.drop 1).drop 99 := by
        rw [List.drop_drop]
      rw [hdd]
      exact List.take_append_drop 99 (cmds.drop 1)
    calc (([] ++ (cmds.take 100).map mkEvent : List ApprovalEvent)).drop 1 ++
          [(⟨tok cl, cl.1, cl.2.1, cl.2.2⟩ : ApprovalEvent)]
        = ((cmds.take 100).drop 1).map mkEvent ++ [mkEvent cl] := by
          rw [List.nil_append, ← List.map_drop]
          rfl
      _ = ((cmds.take 100).drop 1 ++ [cl]).map mkEvent := by simp
      _ = ((cmds.take 100).drop 1 ++ cmds.drop 100).map mkEvent := by rw [hback]
      _ = (cmds.drop 1).map mkEvent := by rw [hdrop1]
  refine ⟨?_, hhist, ?_⟩
  · rw [hhist]
    simp only [List.length_map, List.length_drop, hlen]
  · intro c0 hc0
    obtain ⟨ch, ctail, hcm⟩ : ∃ ch ctail, cmds = ch :: ctail := by
      cases cmds with
      | nil => simp at hlen
      | cons a b => exact ⟨a, b, rfl⟩
    subst hcm
    have htake1 : (ch :: ctail).take 1 = [ch] := rfl
    rw [htake1, List.mem_singleton] at hc0
    rw [hc0]
    rw [hhist]
    have hdrop1 : (ch :: ctail).drop 1 = ctail := rfl
    rw [hdrop1, List.map_map]
    have hmapeq : ctail.map (ApprovalEvent.command ∘ mkEvent) = ctail.map tok :=
      List.map_congr_left (fun c _ => rfl)
    rw [hmapeq]
    rw [List.map_cons, List.nodup_cons] at hnodup
    exact hnodup.1

/-- C4 witness: 101 concrete approvals of distinct names from the empty store
leave exactly 100 history events, in insertion order, with the first name
evicted. -/
theorem history_eviction_fifo_witness :
    (approveAll ⟨[], []⟩ sampleApprovals101).command_history.length = 100
    ∧ (approveAll ⟨[], []⟩ sampleApprovals101).command_history =
      (sampleApprovals101.drop 1).map mkEvent
    ∧ ∀ c0 ∈ sampleApprovals101.take 1,
        tok c0 ∉ (approveAll ⟨[], []⟩
          sampleApprovals101).command_history.map ApprovalEvent.command :=
  history_eviction_fifo sampleApprovals101 (by decide) (by decide) (by decide)

/-- Helper: the user-append step in closed form — it appends exactly when the
tail role is not `user`, and looks only at that role. -/
theorem append_current_user_eq (recent : List Msg) (message : String) :
    append_current_user recent message =
      recent ++ (if recent.getLast?.map Msg.role = some "user" then []
                 else [⟨"user", message⟩]) := by
  unfold append_current_user
  cases h : recent.getLast? with
  | none => simp
  | some m =>
    by_cases hr : m.role = "user"
    · simp [hr]
    · simp [hr]

/-- Helper: the user-append step yields a non-empty list ending in role
`user`. -/
theorem append_current_user_last (recent : List Msg) (message : String) :
    (append_current_user recent message).getLast?.map Msg.role = some "user"
    ∧ append_current_user recent message ≠ [] := by
  rw [append_current_user_eq]
  by_cases h : recent.getLast?.map Msg.role = some "user"
  · rw [if_pos h, List.append_nil]
    refine ⟨h, ?_⟩
    intro hnil
    rw [hnil] at h
    simp at h
  · rw [if_neg h]
    constructor
    · rw [List.getLast?_concat]; rfl
    · simp

/-- Helper: the `_single_mode` command-path message list in concatenated
form. -/
theorem single_mode_messages_shape (recent : List Msg) (cc ctx message : String) :
    single_mode_messages recent cc ctx message =
      [command_system_msg cc]
        ++ (if ctx = "" then [] else [context_system_msg_single ctx])
        ++ append_current_user recent message := by
  unfold single_mode_messages pyInsert
  by_cases h : ctx = "" <;> simp [h]

/-- Helper: the `_send_and_display` message list in concatenated form. -/
theorem send_and_display_messages_shape (recent : List Msg) (ctx message : String) :
    send_and_display_messages recent ctx message =
      (if ctx = "" then [] else [context_system_msg_send ctx])
        ++ append_current_user recent message := by
  unfold send_and_display_messages pyInsert
  by_cases h : ctx = "" <;> simp [h]

/-- C5: the dispatched message list is ordered as command-result system
message (on the command path) first, then the context system message when the
collected context is non-empty, then the recent session messages oldest-first,
then the current user turn — appended exactly when the recent tail's role is
not `user`. -/
theorem message_list_order (recent : List Msg) (command_context context message : String) :
    single_mode_messages recent command_context context message =
      [command_system_msg command_context]
        ++ (if context = "" then [] else [context_system_msg_single context])
        ++ recent
        ++ (if recent.getLast?.map Msg.role = some "user" then []
            else [⟨"user", message⟩])
    ∧ send_and_display_messages recent context message =
      (if context = "" then [] else [context_system_msg_send context])
        ++ recent
        ++ (if recent.getLast?.map Msg.role = some "user" then []
            else [⟨"user", message⟩]) := by
  constructor
  · rw [single_mode_messages_shape, append_current_user_eq]
    simp [List.append_assoc]
  · rw [send_and_display_messages_shape, append_current_user_eq]
    simp [List.append_assoc]

/-- C10: every dispatched message list is non-empty with a `user`-role tail,
and the append decision is a function of the recent tail's role alone — in
particular a recent window already ending in a user turn suppresses the
append of the current input. -/
theorem message_list_user_invariant (recent : List Msg)
    (command_context context message : String) :
    append_current_user recent message =
      (if recent.getLast?.map Msg.role = some "user" then recent
       else recent ++ [⟨"user", message⟩])
    ∧ single_mode_messages recent command_context context message ≠ []
    ∧ (single_mode_messages recent command_context context
        message).getLast?.map Msg.role = some "user"
    ∧ send_and_display_messages recent context message ≠ []
    ∧ (send_and_display_messages recent context
        message).getLast?.map Msg.role = some "user" := by
  obtain ⟨hlast, hne⟩ := append_current_user_last recent message
  refine ⟨?_, ?_, ?_, ?_, ?_⟩
  · rw [append_current_user_eq]
    by_cases h : recent.getLast?.map Msg.role = some "user" <;> simp [h]
  · rw [single_mode_messages_shape]
    simp
  · rw [single_mode_messages_shape, List.getLast?_append_of_ne_nil _ hne, hlast]
  · rw [send_and_display_messages_shape]
    by_cases h : context = "" <;> simp [h, hne]
  · rw [send_and_display_messages_shape, List.getLast?_append_of_ne_nil _ hne, hlast]

/-- C6: `_execute_command` never raises: it is total on the subprocess
outcome; a timeout yields `succeeded = false` with the fixed message
"命令执行超时", any other failure yields `succeeded = false` with an output
containing the error description, and normal completion yields success iff
the exit status is zero, with output `stdout ++ stderr`. -/
theorem execute_command_never_raises :
    (∀ rc out err, (execute_command (.completed rc out err)).2 = out ++ err
      ∧ ((execute_command (.completed rc out err)).1 = true ↔ rc = 0))
    ∧ execute_command .timedOut = (false, "命令执行超时")
    ∧ (∀ e, (execute_command (.failed e)).1 = false
      ∧ ∃ pre suf, (execute_command (.failed e)).2 = pre ++ e ++ suf) := by
  refine ⟨?_, rfl, ?_⟩
  · intro rc out err
    refine ⟨rfl, ?_⟩
    simp [execute_command]
  · intro e
    refine ⟨rfl, "命令执行错误: ", "", ?_⟩
    show "命令执行错误: " ++ e = "命令执行错误: " ++ e ++ ""
    rw [String.append_empty]

/-- C7 counterexample: at `maxTurns = 0` the claim fails: Python's
`history[-0:]` is `history[0:]`, the whole history, so a one-turn store
yields 1 > 2 × 0 turns. -/
theorem get_history_zero_counterexample :
    get_history [⟨"user", "hi", "t0"⟩] 0 = [⟨"user", "hi", "t0"⟩]
    ∧ ¬ ((get_history [⟨"user", "hi", "t0"⟩] 0).length ≤ 2 * 0) := by
  decide

/-- C7 (amended): for `maxTurns ≥ 1`, `get_history` returns exactly the last
`2 × maxTurns` stored turns oldest-first (a suffix of the store), hence at
most `2 × maxTurns` turns for every stored length; in particular
`get_history · 5` never exceeds 10 turns. -/
theorem get_history_window (history : List Turn) (max_turns : Nat)
    (h : 1 ≤ max_turns) :
    get_history history max_turns = history.drop (history.length - 2 * max_turns)
    ∧ (get_history history max_turns).length ≤ 2 * max_turns
    ∧ (get_history history 5).length ≤ 10 := by
  have key : ∀ m : Nat, 1 ≤ m →
      get_history history m = history.drop (history.length - 2 * m) := by
    intro m hm
    unfold get_history pySliceLast
    by_cases hh : history = []
    · simp [hh]
    · rw [if_neg hh, if_neg (by omega), Nat.mul_comm m 2]
  refine ⟨key max_turns h, ?_, ?_⟩
  · rw [key max_turns h, List.length_drop]
    omega
  · rw [key 5 (by omega), List.length_drop]
    omega

/-- C7 witness: a three-turn store with `maxTurns = 1` keeps only the last
two turns. -/
theorem get_history_window_witness :
    get_history [⟨"user", "a", "t1"⟩, ⟨"assistant", "b", "t2"⟩,
        ⟨"user", "c", "t3"⟩] 1 =
      ([⟨"user", "a", "t1"⟩, ⟨"assistant", "b", "t2"⟩,
        ⟨"user", "c", "t3"⟩] : List Turn).drop
        (([⟨"user", "a", "t1"⟩, ⟨"assistant", "b", "t2"⟩,
          ⟨"user", "c", "t3"⟩] : List Turn).length - 2 * 1)
    ∧ (get_history [⟨"user", "a", "t1"⟩, ⟨"assistant", "b", "t2"⟩,
        ⟨"user", "c", "t3"⟩] 1).length ≤ 2 * 1
    ∧ (get_history [⟨"user", "a", "t1"⟩, ⟨"assistant", "b", "t2"⟩,
        ⟨"user", "c", "t3"⟩] 5).length ≤ 10 :=
  get_history_window [⟨"user", "a", "t1"⟩, ⟨"assistant", "b", "t2"⟩,
    ⟨"user", "c", "t3"⟩] 1 (by decide)

/-- C8 counterexample: the gate tests the length of the *stripped* piped
text, not of the raw piped text: `"abc"` padded to 12 characters with spaces
has raw length 12 > 10 yet falls through to interactive/menu handling. -/
theorem piped_length_counterexample :
    ("abc         " : String).length = 12
    ∧ run_piped_dispatch (some "abc         ") = .fallThrough := by
  decide

/-- C8 (amended): piped input is a meaningful piped turn iff the length of
its whitespace-stripped content exceeds 10 characters; then it is processed
as a single turn with `save_to_session = false`, otherwise execution falls
through; a tty stdin always falls through.  For piped text without leading or
trailing whitespace the boundary is at exactly 10 characters. -/
theorem piped_boundary (s : String) :
    (run_piped_dispatch (some s) = .pipedTurn s false ↔ 10 < (pyStrip s).length)
    ∧ ((pyStrip s).length ≤ 10 → run_piped_dispatch (some s) = .fallThrough)
    ∧ run_piped_dispatch none = .fallThrough := by
  have hemp : s = "" → (pyStrip s).length = 0 := by
    intro h; subst h; rfl
  have hsome : run_piped_dispatch (some s) =
      if s ≠ "" ∧ (pyStrip s).length > 10 then .pipedTurn s false
      else .fallThrough := rfl
  refine ⟨⟨?_, ?_⟩, ?_, rfl⟩
  · intro h
    rw [hsome] at h
    by_cases hc : s ≠ "" ∧ (pyStrip s).length > 10
    · exact hc.2
    · rw [if_neg hc] at h
      simp at h
  · intro h
    have hs : s ≠ "" := by
      intro he
      rw [hemp he] at h
      omega
    rw [hsome, if_pos ⟨hs, h⟩]
  · intro h
    have hno : ¬ (s ≠ "" ∧ (pyStrip s).length > 10) := by
      intro hc
      omega
    rw [hsome, if_neg hno]

/-- C8 witness: both sides of the boundary on whitespace-free piped text —
11 characters run as a non-saving piped turn, 10 characters fall through. -/
theorem piped_boundary_witness :
    run_piped_dispatch (some "12345678901") = .pipedTurn "12345678901" false
    ∧ run_piped_dispatch (some "1234567890") = .fallThrough :=
  ⟨(piped_boundary "12345678901").1.mpr (by decide),
   (piped_boundary "1234567890").2.1 (by decide)⟩

/-- C9: durable-load failure is never fatal and defaults to empty: for both
the trust store and the session store, a missing or unparseable persisted
file yields the empty trusted set with empty history, respectively the empty
session log (`commandConfig_load` and `session_load` are total — the
`except (json.JSONDecodeError, IOError)` arms return defaults instead of
raising). -/
theorem load_failure_defaults :
    commandConfig_init .missing = ⟨[], []⟩
    ∧ commandConfig_init .unparseable = ⟨[], []⟩
    ∧ session_init .missing = []
    ∧ session_init .unparseable = [] :=
  ⟨rfl, rfl, rfl, rfl⟩
